import Mathlib

/-!
Verification of the atomate2 workflow-definition layer.

Shallow embedding of:
* `atomate2/qchem/drones.py` (`QChemDrone.assimilate`, `QChemDrone.get_valid_paths`)
* `atomate2/common/jobs/utils.py` (`remove_workflow_files`,
  `retrieve_structure_from_materials_project`, `bader_analysis`)
* `atomate2/vasp/flows/mp.py` (the double-relax/static flow makers)
* `atomate2/vasp/jobs/defect.py` (`spawn_energy_curve_calcs`)

Python strings that are manipulated character-wise (paths) are embedded as
`List Char`; external library functions (`os.path.abspath`,
`TaskDoc.from_directory`, the Materials Project client, pymatgen's
`Structure.interpolate`) are abstract parameters, and `monty.os.path.zpath`
is embedded from its documented behaviour.  Fallible Python code returns
`Except String _`, the error string naming the exception class raised.
-/

/-- Paths and other Python `str` values manipulated character-wise. -/
abbrev PStr := List Char

/-- Python `s.split(sep)` for a one-character separator: the list of chunks
between occurrences of `sep`.  Never returns the empty list. -/
def pySplit (sep : Char) : PStr → List PStr
  | [] => [[]]
  | c :: rest =>
    match pySplit sep rest with
    | [] => [[]]
    | h :: t => if c = sep then [] :: h :: t else (c :: h) :: t

/-- Embedding of `dir_name.split(":")[-1]` (utils.py line 172 and line 203):
the text after the last colon. -/
def stripHost (s : PStr) : PStr :=
  (pySplit ':' s).getLastD []

/-- Embedding of the two-argument `os.path.join` (POSIX rules): an absolute
second component replaces the first, otherwise a separator is inserted
unless the first component is empty or already ends with one. -/
def osJoin (a b : PStr) : PStr :=
  if b.head? = some '/' then b
  else if a = [] then b
  else if a.getLast? = some '/' then a ++ b
  else a ++ '/' :: b

/-- A filesystem state: regular files with their contents, and directories.
`remove_workflow_files` only ever inspects and deletes regular files. -/
structure FS where
  files : List (PStr × String)
  dirs : List PStr
deriving DecidableEq, Repr

/-- Embedding of `os.path.isfile`. -/
def FS.isfile (fs : FS) (p : PStr) : Bool :=
  fs.files.any (fun e => e.1 == p)

/-- Embedding of `os.path.exists`: a regular file or a directory. -/
def FS.pathExists (fs : FS) (p : PStr) : Bool :=
  fs.isfile p || fs.dirs.any (fun d => d == p)

/-- Embedding of `os.remove`: delete the regular file at `p`. -/
def FS.removeFile (fs : FS) (p : PStr) : FS :=
  ⟨fs.files.filter (fun e => e.1 != p), fs.dirs⟩

/-- The extensions probed by `monty.os.path.zpath`, in probe order. -/
def zpathExts : List String :=
  ["", ".gz", ".GZ", ".bz2", ".BZ2", ".z", ".Z"]

/-- Embedding of `monty.os.path.zpath` (external library, embedded from its
documented behaviour): the first existing variant of `name` among the
compression extensions, or `name` itself when none exists. -/
def zpath (fs : FS) (name : PStr) : PStr :=
  match zpathExts.find? (fun ext => fs.pathExists (name ++ ext.data)) with
  | some ext => name ++ ext.data
  | none => name

/-- One inner-loop step of `remove_workflow_files` (utils.py lines 175-183)
for a resolved job directory and one file name: resolve the target path
(through `zpath` when `allow_zpath`), and when it is a regular file record
it and delete it. -/
def rwfStep (allow_zpath : Bool) (st : List PStr × FS) (pr : PStr × PStr) :
    List PStr × FS :=
  let file_name := osJoin pr.1 pr.2
  let file_name := if allow_zpath then zpath st.2 file_name else file_name
  if st.2.isfile file_name then (st.1 ++ [file_name], st.2.removeFile file_name)
  else st

/-- Embedding of the job body `remove_workflow_files` (utils.py lines
148-185).  `abspath` abstracts `os.path.abspath`.  Returns the list of
removed files together with the final filesystem state. -/
def remove_workflow_files (abspath : PStr → PStr) (directories : List PStr)
    (file_names : List PStr) (allow_zpath : Bool) (fs : FS) :
    List PStr × FS :=
  let abs_paths := directories.map (fun d => abspath (stripHost d))
  abs_paths.foldl
    (fun st job_dir =>
      file_names.foldl (fun st2 file => rwfStep allow_zpath st2 (job_dir, file)) st)
    ([], fs)

/-- The (directory, file-name) pairs visited by the nested loops of
`remove_workflow_files`, in visiting order. -/
def rwfPairs (abspath : PStr → PStr) (directories : List PStr)
    (file_names : List PStr) : List (PStr × PStr) :=
  (directories.map (fun d => abspath (stripHost d))).flatMap
    (fun dir => file_names.map (fun f => (dir, f)))

/-- The removal candidates of one (directory, file-name) pair, judged
against a fixed filesystem state. -/
def rwfCandidate (allow_zpath : Bool) (fs : FS) (pr : PStr × PStr) :
    Option PStr :=
  let p := osJoin pr.1 pr.2
  let p := if allow_zpath then zpath fs p else p
  if fs.isfile p then some p else none

/-- The files that `remove_workflow_files` should remove, judged against the
initial filesystem: for each directory (host prefix stripped, made
absolute) and each file name, the `zpath`-resolved join, kept when it is a
regular file; ordered by directory first, then file name. -/
def removalCandidates (abspath : PStr → PStr) (directories : List PStr)
    (file_names : List PStr) (allow_zpath : Bool) (fs : FS) : List PStr :=
  (rwfPairs abspath directories file_names).filterMap
    (rwfCandidate allow_zpath fs)

/-- The filesystem `fs0` with every file whose path lies in `acc` removed:
the state of the filesystem after `remove_workflow_files` has removed
exactly the paths in `acc`. -/
def fsFof (fs0 : FS) (acc : List PStr) : FS :=
  ⟨fs0.files.filter (fun e => decide (e.1 ∉ acc)), fs0.dirs⟩

/-- Embedding of `QChemDrone.get_valid_paths` (drones.py lines 56-80) on an
`os.walk` triple.  The Python expression `Path(parent.glob("mol.qout*"))`
on line 77 calls the attribute `glob` of the `str` value `parent`, which
does not exist; reaching it raises `AttributeError`, embedded as the error
value. -/
def QChemDrone.get_valid_paths (parent : String) (subdirs : List String)
    (files : List String) : Except String (List String) :=
  let _ := files
  let task_names := ["mol.qout.*"]
  if task_names.any (fun t => subdirs.contains t) then
    Except.ok [parent]
  else if task_names.any (fun r => parent.endsWith ("/" ++ r)) then
    Except.ok []
  else
    Except.error "AttributeError"

/-- Embedding of `QChemDrone.assimilate` (drones.py lines 30-54).  The
external constructor `TaskDoc.from_directory` (applied with the drone's
`task_document_kwargs`) is the abstract parameter `from_directory`;
`Path.cwd()` is the parameter `cwd`.  An exception from the constructor is
logged and re-raised unchanged. -/
def QChemDrone.assimilate {E Doc : Type} (from_directory : String → Except E Doc)
    (cwd : String) (path : Option String) : Except E Doc :=
  let path := match path with
    | none => cwd
    | some p => p
  match from_directory path with
  | Except.ok doc => Except.ok doc
  | Except.error e => Except.error e

/-! ### Symbolic model of jobflow jobs, flows and output references

A `Maker.make` call at flow-assembly time does not run any calculation: it
builds a graph whose data dependencies are symbolic output references
(jobflow `OutputReference`), such as `relax_flow.output.structure`.  We
model references as a base job output plus attribute accesses. -/

/-- A symbolic jobflow output reference: the output of the job with the
given id, or an attribute access on another reference. -/
inductive ORef where
  | raw (id : Nat)
  | attr (base : ORef) (fieldName : String)
deriving DecidableEq, Repr

/-- A value passed to a `make` call: Python `None`, a symbolic reference,
or a concrete opaque value (an input structure, a previous directory). -/
inductive Val where
  | vNone
  | ref (r : ORef)
  | conc (s : String)
deriving DecidableEq, Repr

/-- A jobflow `Job` as assembled by the makers in scope: its unique id
(uuid), name, the structure and previous-directory arguments it was made
with, and — for the `remove_workflow_files` cleanup job — its directory,
file-name and `allow_zpath` arguments.  `info` records the provenance data
attached through `update_maker_kwargs`. -/
structure JobM where
  jid : Nat
  name : String
  structArg : Val
  prevDirArg : Val
  dirArgs : List ORef
  fileArgs : List String
  zpathArg : Bool
  info : List (String × Val)
deriving DecidableEq, Repr

/-- A node of an assembled flow graph: a single job, or a nested flow with
its name, children and designated output reference. -/
inductive Node where
  | job (j : JobM)
  | flow (name : String) (jobs : List Node) (output : ORef)
deriving Repr

/-- The output reference of a node: a job's own output, or a flow's
designated output. -/
def Node.output : Node → ORef
  | Node.job j => ORef.raw j.jid
  | Node.flow _ _ out => out

/-- The child list of a flow node (a bare job has none). -/
def Node.jobsOf : Node → List Node
  | Node.job _ => []
  | Node.flow _ js _ => js

/-- The name of a flow node. -/
def Node.nameOf : Node → String
  | Node.job j => j.name
  | Node.flow n _ _ => n

/-- Embedding of `MPGGADoubleRelaxStaticMaker.make` (mp.py lines 116-144).
The sub-makers are abstract: `relaxMake` is `self.relax_maker.make` and
`staticMake` is `self.static_maker.make` (absent when `static_maker` is
`None`). -/
def MPGGADoubleRelaxStaticMaker.make (name : String)
    (relaxMake : Val → Val → Node) (staticMake : Option (Val → Val → Node))
    (structure0 prev_dir : Val) : Node :=
  let relax_flow := relaxMake structure0 prev_dir
  let output := relax_flow.output
  let jobs := [relax_flow]
  match staticMake with
  | some sm =>
    let static_job := sm (Val.ref (ORef.attr output "structure"))
      (Val.ref (ORef.attr output "dir_name"))
    Node.flow name (jobs ++ [static_job]) static_job.output
  | none => Node.flow name jobs output

/-- Embedding of `MPMetaGGADoubleRelaxStaticMaker.make` (mp.py lines
172-200); the body is identical to the GGA variant's. -/
def MPMetaGGADoubleRelaxStaticMaker.make (name : String)
    (relaxMake : Val → Val → Node) (staticMake : Option (Val → Val → Node))
    (structure0 prev_dir : Val) : Node :=
  let relax_flow := relaxMake structure0 prev_dir
  let output := relax_flow.output
  let jobs := [relax_flow]
  match staticMake with
  | some sm =>
    let static_job := sm (Val.ref (ORef.attr output "structure"))
      (Val.ref (ORef.attr output "dir_name"))
    Node.flow name (jobs ++ [static_job]) static_job.output
  | none => Node.flow name jobs output

/-- Modelled from the spec: `_recursive_get_dir_names` (imported by mp.py
from `atomate2.common.utils`, whose source is not part of this tree)
gathers, recursively through nested flows, the `dir_name` output reference
of every job in the given list. -/
def recursiveGetDirNames : List Node → List ORef
  | [] => []
  | Node.job j :: rest =>
    ORef.attr (ORef.raw j.jid) "dir_name" :: recursiveGetDirNames rest
  | Node.flow _ js _ :: rest =>
    recursiveGetDirNames js ++ recursiveGetDirNames rest

/-- The `MP24DoubleRelaxStaticMaker` dataclass state that `make` reads and
writes: its flow name and its `clean_files` field (`none` embeds Python
`None`). -/
structure MP24Maker where
  name : String
  clean_files : Option (List String)
deriving DecidableEq, Repr

/-- Embedding of `MP24DoubleRelaxStaticMaker.make` (mp.py lines 255-289).
Sub-makers are abstract; `fresh` is the id jobflow hands to the cleanup job
when one is created.  Returns the assembled flow together with the maker's
state after the call (line 278 reassigns `self.clean_files`). -/
def MP24DoubleRelaxStaticMaker.make (m : MP24Maker)
    (relaxMake staticMake : Val → Val → Node) (fresh : Nat)
    (structure0 prev_dir : Val) : Node × MP24Maker :=
  let relax_flow := relaxMake structure0 prev_dir
  let static_job := staticMake
    (Val.ref (ORef.attr relax_flow.output "structure"))
    (Val.ref (ORef.attr relax_flow.output "dir_name"))
  let jobs := [relax_flow, static_job]
  let cf := m.clean_files.getD []
  let m2 : MP24Maker := ⟨m.name, some cf⟩
  if cf.length > 0 then
    let directories := recursiveGetDirNames jobs
    let cleanup := Node.job
      ⟨fresh, "remove_workflow_files", Val.vNone, Val.vNone, directories, cf,
        true, []⟩
    (Node.flow m.name (jobs ++ [cleanup]) static_job.output, m2)
  else
    (Node.flow m.name jobs static_job.output, m2)

/-! ### Materials Project structure retrieval (`retrieve_structure_from_materials_project`) -/

/-- A pymatgen `Structure` as far as the retrieval job inspects it: opaque
structural data plus the names of its site properties. -/
structure MPStructure where
  payload : String
  site_properties : List String
deriving DecidableEq, Repr

/-- Embedding of `Structure.remove_site_property` (external pymatgen):
drops the named site property. -/
def MPStructure.remove_site_property (s : MPStructure) (p : String) :
    MPStructure :=
  ⟨s.payload, s.site_properties.filter (fun q => q != p)⟩

/-- One entry of a material document's `origins` list: a property name and
the task id it originates from. -/
structure OriginRec where
  pname : String
  task_id : String
deriving DecidableEq, Repr

/-- A task document as returned by `mpr.tasks.search`. -/
structure TaskSearchDoc where
  structure0 : MPStructure
deriving DecidableEq, Repr

/-- A material document as returned by `mpr.materials.search`. -/
structure MatSearchDoc where
  structure0 : MPStructure
  origins : List OriginRec
deriving DecidableEq, Repr

/-- The external `mp_api` client: whether the package can be imported, the
two search endpoints, and the database version. -/
structure MPClient where
  importable : Bool
  tasksSearch : String → List TaskSearchDoc
  materialsSearch : String → List MatSearchDoc
  database_version : String

/-- The jobflow `Response` assembled by the retrieval job: the structure
output and the `stored_data` entries. -/
structure MPRetrieveResponse where
  output : MPStructure
  task_id : String
  database_version : String
deriving DecidableEq, Repr

/-- Python `lst[0]`: `IndexError` on an empty list. -/
def pyIndex0 {α : Type} : List α → Except String α
  | [] => Except.error "IndexError"
  | x :: _ => Except.ok x

/-- Embedding of `{prop.name: prop for prop in doc.origins}[key]`: a dict
comprehension keeps the last entry for a duplicated key; a missing key is
`KeyError`. -/
def originsLookup (key : String) (l : List OriginRec) :
    Except String OriginRec :=
  match l.reverse.find? (fun o => o.pname == key) with
  | some o => Except.ok o
  | none => Except.error "KeyError"

/-- Embedding of the job body `retrieve_structure_from_materials_project`
(utils.py lines 66-145).  The error string names the exception raised. -/
def retrieve_structure_from_materials_project (client : MPClient)
    (material_id_or_task_id : String) (use_task_id : Bool)
    (reset_magnetic_moments : Bool) : Except String MPRetrieveResponse :=
  if !client.importable then Except.error "ImportError"
  else
    let fetched : Except String (MPStructure × String) :=
      if use_task_id then
        (pyIndex0 (client.tasksSearch material_id_or_task_id)).map
          (fun doc => (doc.structure0, material_id_or_task_id))
      else
        (pyIndex0 (client.materialsSearch material_id_or_task_id)).bind
          (fun doc =>
            (originsLookup "structure" doc.origins).map
              (fun o => (doc.structure0, o.task_id)))
    match fetched with
    | Except.error e => Except.error e
    | Except.ok (st, task_id) =>
      let st :=
        if reset_magnetic_moments && st.site_properties.contains "magmom" then
          st.remove_site_property "magmom"
        else st
      Except.ok ⟨st, task_id, client.database_version⟩

/-- The magnetic-moment reset of the retrieval job in declarative form:
remove the `magmom` site property exactly when requested and present. -/
def resetMagmom (reset : Bool) (st : MPStructure) : MPStructure :=
  if reset && st.site_properties.contains "magmom" then
    st.remove_site_property "magmom"
  else st

/-! ### `spawn_energy_curve_calcs` (defect.py lines 37-109) -/

/-- One record of the `outputs` list assembled by
`spawn_energy_curve_calcs`: symbolic references into one static job's
output document. -/
structure CCDRec where
  structRef : ORef
  energyRef : ORef
  dirNameRef : ORef
  uuidRef : ORef
deriving DecidableEq, Repr

/-- The value returned by `spawn_energy_curve_calcs`:
`Response(output=outputs, replace=Flow(jobs, outputs))`. -/
structure SpawnResult where
  outputs : List CCDRec
  flowJobs : List JobM
  flowOutput : List CCDRec
deriving DecidableEq, Repr

/-- Embedding of `StaticMaker.make` as used inside the running job body:
jobflow gives the new job the fresh id `jid`; the job carries its maker's
name and the arguments it was made with. -/
def StaticMaker.makeJob (makerName : String) (jid : Nat)
    (structure0 prev_vasp_dir : Val) : JobM :=
  ⟨jid, makerName, structure0, prev_vasp_dir, [], [], false, []⟩

/-- Python `sorted` on the distortion values (embedded as integers). -/
def pySorted (l : List Int) : List Int :=
  l.mergeSort (fun a b => a ≤ b)

/-- The name suffix appended to the `i`-th static job
(`f" {i}"`, or `f" {add_name} {i}"` when `add_name` is nonempty). -/
def spawnSuffix (add_name : String) (i : Nat) : String :=
  if add_name = "" then " " ++ toString i
  else " " ++ add_name ++ " " ++ toString i

/-- Embedding of the job body `spawn_energy_curve_calcs` (defect.py lines
37-109).  `interpolate` abstracts pymatgen's `Structure.interpolate`
applied to the sorted distortions; `fresh` is the id jobflow hands to the
first `make` call, with subsequent calls numbered consecutively.  The
static job made for the reference structure on line 74 receives id `fresh`
and is bound to no name: the function drops it. -/
def spawn_energy_curve_calcs (relaxed distorted : Val)
    (distortions : List Int)
    (interpolate : Val → Val → List Int → List Val) (makerName : String)
    (prev_vasp_dir : Val) (add_name : String)
    (add_info : Option (List (String × Val))) (fresh : Nat) : SpawnResult :=
  let _ := StaticMaker.makeJob makerName fresh relaxed Val.vNone
  let distorted_structures := interpolate relaxed distorted (pySorted distortions)
  let info : List (String × Val) :=
    [("relaxed_structure", relaxed), ("distorted_structure", distorted)] ++
      add_info.getD []
  let step := fun (pr : Nat × Val) =>
    let static_job := StaticMaker.makeJob makerName (fresh + 1 + pr.1) pr.2
      prev_vasp_dir
    let static_job : JobM :=
      ⟨static_job.jid, static_job.name ++ spawnSuffix add_name pr.1,
        static_job.structArg, static_job.prevDirArg, static_job.dirArgs,
        static_job.fileArgs, static_job.zpathArg, info⟩
    let out := ORef.raw static_job.jid
    (static_job,
      (⟨ORef.attr (ORef.attr out "output") "structure",
        ORef.attr (ORef.attr out "output") "energy",
        ORef.attr out "dir_name", ORef.attr out "uuid"⟩ : CCDRec))
  let built := distorted_structures.enum.map step
  let jobs := built.map (fun p => p.1)
  let outputs := built.map (fun p => p.2)
  ⟨outputs, jobs, outputs⟩

/-! ### `bader_analysis` (utils.py lines 188-204) -/

/-- Embedding of the job body `bader_analysis`: strip any host prefix from
`dir_name`, make it absolute, and hand it to the external
`bader_analysis_from_path` (the abstract parameter `runBader`) together
with `suffix or ""`. -/
def bader_analysis {α : Type} (abspath : PStr → PStr)
    (runBader : PStr → String → α) (dir_name : PStr)
    (suffix0 : Option String) : α :=
  runBader (abspath (stripHost dir_name)) (suffix0.getD "")

/-! ### Concrete instances used to evaluate the embeddings -/

/-- A concrete sub-maker producing a bare relax job with id 11. -/
def relaxMake0 : Val → Val → Node :=
  fun a b => Node.job ⟨11, "relax", a, b, [], [], false, []⟩

/-- A concrete sub-maker producing a bare static job with id 12. -/
def staticMake0 : Val → Val → Node :=
  fun a b => Node.job ⟨12, "static", a, b, [], [], false, []⟩

/-- A concrete input structure value. -/
def v0 : Val := Val.conc "Si"

/-- An MP24 maker instance whose `clean_files` is Python `None`. -/
def m24none : MP24Maker := ⟨"MP24 r2SCAN workflow", none⟩

/-- An MP24 maker instance with the default `("WAVECAR",)` clean list. -/
def m24wavecar : MP24Maker := ⟨"MP24 r2SCAN workflow", some ["WAVECAR"]⟩

/-- A concrete Materials Project client: importable, one task document and
one material document for every id, database version `"v2025"`. -/
def client0 : MPClient :=
  ⟨true,
    fun _ => [⟨⟨"Si-task", ["magmom"]⟩⟩],
    fun _ => [⟨⟨"Si-mat", []⟩, [⟨"structure", "mp-task-7"⟩]⟩],
    "v2025"⟩

/-- A concrete model of `os.path.abspath` for already-absolute inputs. -/
def abspath0 : PStr → PStr := fun p => p

/-- A concrete filesystem: `WAVECAR` and a gzipped `CHGCAR` in `/calc`,
an unrelated file `/other/KEEP`, and the directory `/calc`. -/
def fs0 : FS :=
  ⟨[("/calc/WAVECAR".toList, "wave"), ("/calc/CHGCAR.gz".toList, "chg"),
    ("/other/KEEP".toList, "keep")], ["/calc".toList]⟩

/-! ## Theorems -/

/-- C1: `MPGGADoubleRelaxStaticMaker.make` (and likewise the meta-GGA
variant) first invokes `relax_maker.make` on the input structure and
`prev_dir`; when a static maker is present it then invokes
`static_maker.make` with the relax flow's `output.structure` and
`output.dir_name`; the returned flow contains exactly these jobs in that
order, and its output is the static job's output when a static maker is
present and the relax flow's output otherwise. -/
theorem mp_double_relax_static_make_spec (name : String)
    (relaxMake : Val → Val → Node) (structure0 prev_dir : Val) :
    (MPGGADoubleRelaxStaticMaker.make name relaxMake none structure0 prev_dir =
      Node.flow name [relaxMake structure0 prev_dir]
        (relaxMake structure0 prev_dir).output) ∧
    (∀ sm : Val → Val → Node,
      MPGGADoubleRelaxStaticMaker.make name relaxMake (some sm) structure0
          prev_dir =
        Node.flow name
          [relaxMake structure0 prev_dir,
            sm (Val.ref (ORef.attr (relaxMake structure0 prev_dir).output
                  "structure"))
              (Val.ref (ORef.attr (relaxMake structure0 prev_dir).output
                  "dir_name"))]
          (sm (Val.ref (ORef.attr (relaxMake structure0 prev_dir).output
                  "structure"))
              (Val.ref (ORef.attr (relaxMake structure0 prev_dir).output
                  "dir_name"))).output) ∧
    (MPMetaGGADoubleRelaxStaticMaker.make name relaxMake none structure0
        prev_dir =
      Node.flow name [relaxMake structure0 prev_dir]
        (relaxMake structure0 prev_dir).output) ∧
    (∀ sm : Val → Val → Node,
      MPMetaGGADoubleRelaxStaticMaker.make name relaxMake (some sm) structure0
          prev_dir =
        Node.flow name
          [relaxMake structure0 prev_dir,
            sm (Val.ref (ORef.attr (relaxMake structure0 prev_dir).output
                  "structure"))
              (Val.ref (ORef.attr (relaxMake structure0 prev_dir).output
                  "dir_name"))]
          (sm (Val.ref (ORef.attr (relaxMake structure0 prev_dir).output
                  "structure"))
              (Val.ref (ORef.attr (relaxMake structure0 prev_dir).output
                  "dir_name"))).output) :=
  ⟨rfl, fun _ => rfl, rfl, fun _ => rfl⟩

/-- C2: on the `os.walk` triple `("/calc", [], [])` — a directory with no
`mol.qout.*` subdirectory whose name does not end in `mol.qout.*` —
`QChemDrone.get_valid_paths` reaches `Path(parent.glob("mol.qout*"))`
(drones.py line 77), which calls the attribute `glob` of a `str` and
raises `AttributeError` instead of returning a list. -/
theorem get_valid_paths_raises_attribute_error :
    QChemDrone.get_valid_paths "/calc" [] [] =
      Except.error "AttributeError" := by
  rfl

/-- C3: `QChemDrone.assimilate` returns exactly the document produced by
the external `TaskDoc.from_directory` at `path` (the current working
directory when `path` is `None`), and raises exactly when that constructor
raises, re-raising the same exception. -/
theorem assimilate_spec {E Doc : Type} (from_directory : String → Except E Doc)
    (cwd : String) (path : Option String) :
    QChemDrone.assimilate from_directory cwd path =
      from_directory (path.getD cwd) := by
  cases path with
  | none =>
    show (match from_directory cwd with
      | Except.ok doc => Except.ok doc
      | Except.error e => Except.error e) = from_directory cwd
    cases from_directory cwd <;> rfl
  | some p =>
    show (match from_directory p with
      | Except.ok doc => Except.ok doc
      | Except.error e => Except.error e) = from_directory p
    cases from_directory p <;> rfl

/-- C8: `MP24DoubleRelaxStaticMaker.make` reassigns `self.clean_files`
(mp.py line 278): afterwards the field always holds a list (the empty one
when it was `None` or empty), so a maker whose `clean_files` was `None` is
mutated, while a maker with a non-empty `clean_files` is left unchanged. -/
theorem mp24_make_mutates_maker (m : MP24Maker) (rm sm : Val → Val → Node)
    (fresh : Nat) (s p : Val) :
    ((MP24DoubleRelaxStaticMaker.make m rm sm fresh s p).2 =
      ⟨m.name, some (m.clean_files.getD [])⟩) ∧
    (m.clean_files = none →
      (MP24DoubleRelaxStaticMaker.make m rm sm fresh s p).2 ≠ m) ∧
    (∀ l : List String, l ≠ [] → m.clean_files = some l →
      (MP24DoubleRelaxStaticMaker.make m rm sm fresh s p).2 = m) := by
  have h1 : (MP24DoubleRelaxStaticMaker.make m rm sm fresh s p).2 =
      ⟨m.name, some (m.clean_files.getD [])⟩ := by
    simp only [MP24DoubleRelaxStaticMaker.make]
    split <;> rfl
  refine ⟨h1, ?_, ?_⟩
  · intro hn
    rw [h1]
    cases m with
    | mk nm cf =>
      simp only at hn
      simp [hn]
  · intro l _ hsome
    rw [h1]
    cases m with
    | mk nm cf =>
      simp only at hsome
      simp [hsome]

/-- Closed witness for C8: the maker `m24none` (whose `clean_files` is
`None`) is changed by its own `make` call. -/
theorem mp24_make_mutates_maker_witness :
    m24none.clean_files = none ∧
    (MP24DoubleRelaxStaticMaker.make m24none relaxMake0 staticMake0 13 v0
        Val.vNone).2 ≠ m24none :=
  ⟨rfl,
    (mp24_make_mutates_maker m24none relaxMake0 staticMake0 13 v0
        Val.vNone).2.1 rfl⟩

/-- C7: `MP24DoubleRelaxStaticMaker.make` returns a flow whose output is
the static job's output; with a non-empty `clean_files` the flow's last
job is a `remove_workflow_files` cleanup job over the directory names
gathered recursively from the relax flow and the static job, with
`file_names = clean_files` and `allow_zpath = true`; with `None` or empty
`clean_files` the flow holds just the relax flow and the static job. -/
theorem mp24_make_flow_spec (m : MP24Maker) (rm sm : Val → Val → Node)
    (fresh : Nat) (s p : Val) :
    ((MP24DoubleRelaxStaticMaker.make m rm sm fresh s p).1.output =
      (sm (Val.ref (ORef.attr (rm s p).output "structure"))
        (Val.ref (ORef.attr (rm s p).output "dir_name"))).output) ∧
    (m.clean_files = none ∨ m.clean_files = some [] →
      (MP24DoubleRelaxStaticMaker.make m rm sm fresh s p).1 =
        Node.flow m.name
          [rm s p,
            sm (Val.ref (ORef.attr (rm s p).output "structure"))
              (Val.ref (ORef.attr (rm s p).output "dir_name"))]
          (sm (Val.ref (ORef.attr (rm s p).output "structure"))
            (Val.ref (ORef.attr (rm s p).output "dir_name"))).output) ∧
    (∀ l : List String, m.clean_files = some l → l ≠ [] →
      (MP24DoubleRelaxStaticMaker.make m rm sm fresh s p).1 =
        Node.flow m.name
          [rm s p,
            sm (Val.ref (ORef.attr (rm s p).output "structure"))
              (Val.ref (ORef.attr (rm s p).output "dir_name")),
            Node.job
              ⟨fresh, "remove_workflow_files", Val.vNone, Val.vNone,
                recursiveGetDirNames
                  [rm s p,
                    sm (Val.ref (ORef.attr (rm s p).output "structure"))
                      (Val.ref (ORef.attr (rm s p).output "dir_name"))],
                l, true, []⟩]
          (sm (Val.ref (ORef.attr (rm s p).output "structure"))
            (Val.ref (ORef.attr (rm s p).output "dir_name"))).output) := by
  refine ⟨?_, ?_, ?_⟩
  · simp only [MP24DoubleRelaxStaticMaker.make]
    split <;> rfl
  · intro h
    rcases h with h | h <;> simp [MP24DoubleRelaxStaticMaker.make, h]
  · intro l hsome hl
    have hlen : 0 < l.length := List.length_pos.mpr hl
    simp [MP24DoubleRelaxStaticMaker.make, hsome, hlen]

/-- Closed witness for C7: the default maker (`clean_files =
`("WAVECAR",)`) appends the cleanup job as the flow's last job. -/
theorem mp24_make_flow_spec_witness :
    m24wavecar.clean_files = some ["WAVECAR"] ∧
    (MP24DoubleRelaxStaticMaker.make m24wavecar relaxMake0 staticMake0 13 v0
        Val.vNone).1 =
      Node.flow m24wavecar.name
        [relaxMake0 v0 Val.vNone,
          staticMake0
            (Val.ref (ORef.attr (relaxMake0 v0 Val.vNone).output "structure"))
            (Val.ref (ORef.attr (relaxMake0 v0 Val.vNone).output "dir_name")),
          Node.job
            ⟨13, "remove_workflow_files", Val.vNone, Val.vNone,
              recursiveGetDirNames
                [relaxMake0 v0 Val.vNone,
                  staticMake0
                    (Val.ref (ORef.attr (relaxMake0 v0 Val.vNone).output
                      "structure"))
                    (Val.ref (ORef.attr (relaxMake0 v0 Val.vNone).output
                      "dir_name"))],
              ["WAVECAR"], true, []⟩]
        (staticMake0
          (Val.ref (ORef.attr (relaxMake0 v0 Val.vNone).output "structure"))
          (Val.ref (ORef.attr (relaxMake0 v0 Val.vNone).output
            "dir_name"))).output :=
  ⟨rfl,
    (mp24_make_flow_spec m24wavecar relaxMake0 staticMake0 13 v0
        Val.vNone).2.2 ["WAVECAR"] rfl (by decide)⟩

/-- C6: `retrieve_structure_from_materials_project` raises `ImportError`
exactly when the `mp_api` client cannot be imported; otherwise, when the
relevant search returns a document (and, for material ids, a `structure`
origin exists), it returns a `Response` carrying the retrieved structure —
with the `magmom` site property removed exactly when
`reset_magnetic_moments` is set and the property is present — together
with the resolved task id and the database version. -/
theorem retrieve_structure_spec (client : MPClient) (mid : String)
    (use_task_id reset : Bool) :
    ((retrieve_structure_from_materials_project client mid use_task_id reset =
        Except.error "ImportError") ↔ client.importable = false) ∧
    (client.importable = true →
      (∀ doc rest, use_task_id = true → client.tasksSearch mid = doc :: rest →
        retrieve_structure_from_materials_project client mid use_task_id
            reset =
          Except.ok
            ⟨resetMagmom reset doc.structure0, mid,
              client.database_version⟩) ∧
      (∀ doc rest o, use_task_id = false →
        client.materialsSearch mid = doc :: rest →
        originsLookup "structure" doc.origins = Except.ok o →
        retrieve_structure_from_materials_project client mid use_task_id
            reset =
          Except.ok
            ⟨resetMagmom reset doc.structure0, o.task_id,
              client.database_version⟩)) := by
  refine ⟨?_, fun hi => ⟨?_, ?_⟩⟩
  · by_cases hi : client.importable = true
    · simp only [hi]
      constructor
      · intro hres
        exfalso
        by_cases hu : use_task_id = true
        · rcases hts : client.tasksSearch mid with _ | ⟨doc, rest⟩ <;>
            simp [retrieve_structure_from_materials_project, hi, hu, hts,
              pyIndex0, Except.map] at hres
        · rcases hts : client.materialsSearch mid with _ | ⟨doc, rest⟩
          · simp [retrieve_structure_from_materials_project, hi,
              Bool.eq_false_iff.mpr hu, hts, pyIndex0, Except.map,
              Except.bind] at hres
          · rcases hf : doc.origins.reverse.find?
                (fun o => o.pname == "structure") with _ | o <;>
              simp [retrieve_structure_from_materials_project, hi,
                Bool.eq_false_iff.mpr hu, hts, pyIndex0, originsLookup,
                hf, Except.map, Except.bind] at hres
      · intro hfalse
        exact absurd hfalse (by decide)
    · have hif : client.importable = false := Bool.eq_false_iff.mpr hi
      simp [retrieve_structure_from_materials_project, hif]
  · intro doc rest hu hts
    simp [retrieve_structure_from_materials_project, hi, hu, hts, pyIndex0,
      Except.map, resetMagmom]
  · intro doc rest o hu hts ho
    simp [retrieve_structure_from_materials_project, hi,
      Bool.eq_false_iff.mpr (by simp [hu] : ¬use_task_id = true), hts,
      pyIndex0, ho, Except.map, Except.bind, resetMagmom]

/-- Closed witness for C6: with the concrete client `client0` a task-id
request returns the task structure with its `magmom` property removed, the
input id and the database version. -/
theorem retrieve_structure_spec_witness :
    client0.importable = true ∧
    client0.tasksSearch "mp-149" =
      ⟨⟨"Si-task", ["magmom"]⟩⟩ :: [] ∧
    retrieve_structure_from_materials_project client0 "mp-149" true true =
      Except.ok ⟨⟨"Si-task", []⟩, "mp-149", "v2025"⟩ := by
  refine ⟨rfl, rfl, ?_⟩
  have h := ((retrieve_structure_spec client0 "mp-149" true true).2 rfl).1
    ⟨⟨"Si-task", ["magmom"]⟩⟩ [] rfl rfl
  simpa [resetMagmom, MPStructure.remove_site_property] using h

/-- C10: `spawn_energy_curve_calcs` returns a `Response` whose replacement
flow holds exactly one static job per structure obtained by interpolating
from the relaxed to the distorted structure over the sorted distortions
(job `i` getting id `fresh + 1 + i` and the `i`-th interpolated structure),
whose output is the equal-length list of records referencing each job's
structure, energy, dir_name and uuid, and which also serves as the flow's
output; the reference static job made on defect.py line 74 (id `fresh`)
appears in neither the jobs nor the outputs. -/
theorem spawn_energy_curve_calcs_spec (relaxed distorted : Val)
    (distortions : List Int) (interpolate : Val → Val → List Int → List Val)
    (makerName : String) (prev_vasp_dir : Val) (add_name : String)
    (add_info : Option (List (String × Val))) (fresh : Nat) :
    ((spawn_energy_curve_calcs relaxed distorted distortions interpolate
        makerName prev_vasp_dir add_name add_info fresh).flowJobs =
      (interpolate relaxed distorted (pySorted distortions)).enum.map
        (fun pr =>
          ⟨fresh + 1 + pr.1, makerName ++ spawnSuffix add_name pr.1, pr.2,
            prev_vasp_dir, [], [], false,
            [("relaxed_structure", relaxed),
              ("distorted_structure", distorted)] ++ add_info.getD []⟩)) ∧
    ((spawn_energy_curve_calcs relaxed distorted distortions interpolate
        makerName prev_vasp_dir add_name add_info fresh).outputs =
      (interpolate relaxed distorted (pySorted distortions)).enum.map
        (fun pr =>
          ⟨ORef.attr (ORef.attr (ORef.raw (fresh + 1 + pr.1)) "output")
              "structure",
            ORef.attr (ORef.attr (ORef.raw (fresh + 1 + pr.1)) "output")
              "energy",
            ORef.attr (ORef.raw (fresh + 1 + pr.1)) "dir_name",
            ORef.attr (ORef.raw (fresh + 1 + pr.1)) "uuid"⟩)) ∧
    ((spawn_energy_curve_calcs relaxed distorted distortions interpolate
        makerName prev_vasp_dir add_name add_info fresh).flowOutput =
      (spawn_energy_curve_calcs relaxed distorted distortions interpolate
        makerName prev_vasp_dir add_name add_info fresh).outputs) ∧
    (((spawn_energy_curve_calcs relaxed distorted distortions interpolate
        makerName prev_vasp_dir add_name add_info fresh).flowJobs.map
          JobM.jid).any (fun j => j == fresh) = false) ∧
    (((spawn_energy_curve_calcs relaxed distorted distortions interpolate
        makerName prev_vasp_dir add_name add_info fresh).outputs.map
          CCDRec.uuidRef).any
        (fun u => u == ORef.attr (ORef.raw fresh) "uuid") = false) := by
  have h1 : (spawn_energy_curve_calcs relaxed distorted distortions
      interpolate makerName prev_vasp_dir add_name add_info fresh).flowJobs =
      (interpolate relaxed distorted (pySorted distortions)).enum.map
        (fun pr =>
          ⟨fresh + 1 + pr.1, makerName ++ spawnSuffix add_name pr.1, pr.2,
            prev_vasp_dir, [], [], false,
            [("relaxed_structure", relaxed),
              ("distorted_structure", distorted)] ++ add_info.getD []⟩) := by
    simp only [spawn_energy_curve_calcs, List.map_map]
    rfl
  have h2 : (spawn_energy_curve_calcs relaxed distorted distortions
      interpolate makerName prev_vasp_dir add_name add_info fresh).outputs =
      (interpolate relaxed distorted (pySorted distortions)).enum.map
        (fun pr =>
          ⟨ORef.attr (ORef.attr (ORef.raw (fresh + 1 + pr.1)) "output")
              "structure",
            ORef.attr (ORef.attr (ORef.raw (fresh + 1 + pr.1)) "output")
              "energy",
            ORef.attr (ORef.raw (fresh + 1 + pr.1)) "dir_name",
            ORef.attr (ORef.raw (fresh + 1 + pr.1)) "uuid"⟩) := by
    simp only [spawn_energy_curve_calcs, List.map_map]
    rfl
  refine ⟨h1, h2, rfl, ?_, ?_⟩
  · rw [h1, List.map_map]
    rw [List.any_eq_false]
    intro x hx
    rcases List.mem_map.mp hx with ⟨pr, _, hpr⟩
    have : x = fresh + 1 + pr.1 := by rw [← hpr]; rfl
    subst this
    simp only [beq_iff_eq]
    omega
  · rw [h2, List.map_map]
    rw [List.any_eq_false]
    intro x hx
    rcases List.mem_map.mp hx with ⟨pr, _, hpr⟩
    have : x = ORef.attr (ORef.raw (fresh + 1 + pr.1)) "uuid" := by
      rw [← hpr]; rfl
    subst this
    simp only [beq_iff_eq, ORef.attr.injEq, ORef.raw.injEq]
    intro h
    omega

/-! ### Lemmas about `pySplit` and `stripHost` -/

theorem pySplit_ne_nil (sep : Char) (s : PStr) : pySplit sep s ≠ [] := by
  induction s with
  | nil => simp [pySplit]
  | cons c rest ih =>
    rcases h : pySplit sep rest with _ | ⟨x, t⟩
    · exact absurd h ih
    · by_cases hc : c = sep <;> simp [pySplit, h, hc]

theorem pySplit_append (sep : Char) (a b : PStr) :
    pySplit sep (a ++ sep :: b) = pySplit sep a ++ pySplit sep b := by
  induction a with
  | nil =>
    rcases hb : pySplit sep b with _ | ⟨h, t⟩
    · exact absurd hb (pySplit_ne_nil sep b)
    · simp [pySplit, hb]
  | cons c a ih =>
    rcases ha : pySplit sep a with _ | ⟨h, t⟩
    · exact absurd ha (pySplit_ne_nil sep a)
    · have h2 : pySplit sep (a ++ sep :: b) = (h :: t) ++ pySplit sep b := by
        rw [ih, ha]
      have h2' : pySplit sep (List.append a (sep :: b)) =
          (h :: t) ++ pySplit sep b := h2
      simp only [List.cons_append, pySplit]
      rw [h2', ha]
      simp only [List.cons_append]
      by_cases hc : c = sep <;> simp [hc]

theorem pySplit_no_sep (sep : Char) (s : PStr) (h : sep ∉ s) :
    pySplit sep s = [s] := by
  induction s with
  | nil => rfl
  | cons c rest ih =>
    have hc : c ≠ sep := fun hc => h (hc ▸ List.mem_cons_self c rest)
    have hrest : sep ∉ rest := fun hr => h (List.mem_cons_of_mem c hr)
    simp only [pySplit, ih hrest]
    simp [hc]

theorem getLastD_append_single {α : Type} (l : List α) (p : α) :
    ∀ d, (l ++ [p]).getLastD d = p := by
  induction l with
  | nil => intro d; rfl
  | cons x t ih =>
    intro d
    rw [List.cons_append, List.getLastD_cons]
    exact ih x

theorem stripHost_no_colon (p : PStr) (h : (':' : Char) ∉ p) :
    stripHost p = p := by
  simp [stripHost, pySplit_no_sep ':' p h]

theorem stripHost_strips (host p : PStr) (h : (':' : Char) ∉ p) :
    stripHost (host ++ ':' :: p) = p := by
  unfold stripHost
  rw [pySplit_append, pySplit_no_sep ':' p h]
  rcases hh : pySplit ':' host with _ | ⟨x, t⟩
  · exact absurd hh (pySplit_ne_nil ':' host)
  · show (x :: (t ++ [p])).getLastD [] = p
    rw [← List.cons_append]
    exact getLastD_append_single (x :: t) p []

/-- C9: `remove_workflow_files` and `bader_analysis` accept `host:/path`
directory arguments: the text after the last colon is kept and made
absolute before any filesystem access, so a colon-free path is used as-is
while any prefix before a colon is silently discarded. -/
theorem strip_hostname_spec {α : Type} (host p : PStr)
    (h : (':' : Char) ∉ p) :
    (stripHost (host ++ ':' :: p) = p) ∧
    (stripHost p = p) ∧
    (∀ (abspath : PStr → PStr) (runBader : PStr → String → α)
        (suffix0 : Option String),
      bader_analysis abspath runBader (host ++ ':' :: p) suffix0 =
        runBader (abspath p) (suffix0.getD "")) ∧
    (∀ (abspath : PStr → PStr) (runBader : PStr → String → α)
        (suffix0 : Option String),
      bader_analysis abspath runBader p suffix0 =
        runBader (abspath p) (suffix0.getD "")) ∧
    (∀ (abspath : PStr → PStr) (file_names : List PStr) (allow_zpath : Bool)
        (fs : FS),
      remove_workflow_files abspath [host ++ ':' :: p] file_names allow_zpath
          fs =
        remove_workflow_files abspath [p] file_names allow_zpath fs) := by
  refine ⟨stripHost_strips host p h, stripHost_no_colon p h, ?_, ?_, ?_⟩
  · intro abspath runBader suffix0
    simp [bader_analysis, stripHost_strips host p h]
  · intro abspath runBader suffix0
    simp [bader_analysis, stripHost_no_colon p h]
  · intro abspath file_names allow_zpath fs
    simp [remove_workflow_files, stripHost_strips host p h,
      stripHost_no_colon p h]

/-- Closed witness for C9: the host prefix `node1:` is stripped from
`node1:/calc` while the colon-free `/calc` is kept unchanged. -/
theorem strip_hostname_spec_witness :
    ((':' : Char) ∉ "/calc".toList) ∧
    stripHost ("node1".toList ++ ':' :: "/calc".toList) = "/calc".toList ∧
    stripHost "/calc".toList = "/calc".toList :=
  ⟨by decide,
    (strip_hostname_spec (α := Unit) "node1".toList "/calc".toList
      (by decide)).1,
    (strip_hostname_spec (α := Unit) "node1".toList "/calc".toList
      (by decide)).2.1⟩

/-! ### Lemmas towards the `remove_workflow_files` specification -/

theorem rwf_foldl_pairs (abspath : PStr → PStr) (directories : List PStr)
    (file_names : List PStr) (az : Bool) (fs : FS) :
    remove_workflow_files abspath directories file_names az fs =
      (rwfPairs abspath directories file_names).foldl (rwfStep az)
        ([], fs) := by
  unfold remove_workflow_files rwfPairs
  suffices h : ∀ (l : List PStr) (init : List PStr × FS),
      l.foldl
        (fun st job_dir =>
          file_names.foldl (fun st2 f => rwfStep az st2 (job_dir, f)) st)
        init =
      (l.flatMap fun d => file_names.map fun f => (d, f)).foldl (rwfStep az)
        init from h _ _
  intro l
  induction l with
  | nil => intro init; rfl
  | cons d t ih =>
    intro init
    simp only [List.foldl_cons, List.flatMap_cons, List.foldl_append]
    rw [List.foldl_map]
    exact ih _

theorem fsFof_nil (fs : FS) : fsFof fs [] = fs := by
  unfold fsFof
  have : (fun e : PStr × String => decide (e.1 ∉ ([] : List PStr))) =
      fun _ => true := by
    funext e
    simp
  rw [this, List.filter_true]

theorem isfile_fsFof (fs0 : FS) (acc : List PStr) (q : PStr) :
    (fsFof fs0 acc).isfile q = (fs0.isfile q && decide (q ∉ acc)) := by
  rw [Bool.eq_iff_iff]
  simp only [FS.isfile, fsFof, List.any_eq_true, List.mem_filter,
    Bool.and_eq_true, decide_eq_true_eq, beq_iff_eq]
  constructor
  · rintro ⟨e, ⟨he, hnot⟩, heq⟩
    exact ⟨⟨e, he, heq⟩, heq ▸ hnot⟩
  · rintro ⟨⟨e, he, heq⟩, hnot⟩
    exact ⟨e, ⟨he, heq ▸ hnot⟩, heq⟩

theorem pathExists_fsFof_mono (fs0 : FS) (acc : List PStr) (q : PStr) :
    (fsFof fs0 acc).pathExists q = true → fs0.pathExists q = true := by
  intro h
  simp only [FS.pathExists, Bool.or_eq_true] at h ⊢
  rcases h with h | h
  · rw [isfile_fsFof, Bool.and_eq_true] at h
    exact Or.inl h.1
  · exact Or.inr h

theorem removeFile_fsFof (fs0 : FS) (acc : List PStr) (c : PStr) :
    (fsFof fs0 acc).removeFile c = fsFof fs0 (acc ++ [c]) := by
  unfold fsFof FS.removeFile
  simp only [List.filter_filter]
  have : (fun e : PStr × String =>
      (e.1 != c) && decide (e.1 ∉ acc)) =
      fun e : PStr × String => decide (e.1 ∉ acc ++ [c]) := by
    funext e
    simp only [List.mem_append, List.mem_singleton, bne_iff_ne, ne_eq,
      decide_not]
    by_cases h1 : e.1 = c <;> by_cases h2 : e.1 ∈ acc <;>
      simp [h1, h2]
  rw [this]

theorem find?_pred_mono_none {α : Type} (p0 pf : α → Bool)
    (h : ∀ a, pf a = true → p0 a = true) :
    ∀ L : List α, L.find? p0 = none → L.find? pf = none := by
  intro L
  induction L with
  | nil => intro; rfl
  | cons a t ih =>
    intro h0
    rcases hpa : p0 a with _ | _
    · have hpf : pf a = false := by
        rcases hb : pf a with _ | _
        · rfl
        · rw [h a hb] at hpa; cases hpa
      rw [List.find?_cons_of_neg _ (by simp [hpf])]
      rw [List.find?_cons_of_neg _ (by simp [hpa])] at h0
      exact ih h0
    · rw [List.find?_cons_of_pos _ hpa] at h0
      cases h0

theorem find?_pred_mono_some {α : Type} (p0 pf : α → Bool)
    (h : ∀ a, pf a = true → p0 a = true) :
    ∀ (L : List α) (e0 : α), L.find? p0 = some e0 → pf e0 = true →
      L.find? pf = some e0 := by
  intro L
  induction L with
  | nil => intro e0 h0; cases h0
  | cons a t ih =>
    intro e0 h0 hf
    rcases hpa : p0 a with _ | _
    · have hpf : pf a = false := by
        rcases hb : pf a with _ | _
        · rfl
        · rw [h a hb] at hpa; cases hpa
      rw [List.find?_cons_of_neg _ (by simp [hpf])]
      rw [List.find?_cons_of_neg _ (by simp [hpa])] at h0
      exact ih e0 h0 hf
    · rw [List.find?_cons_of_pos _ hpa] at h0
      have he : a = e0 := by injection h0
      subst he
      exact List.find?_cons_of_pos _ hf

theorem zpath_shape (fs : FS) (name : PStr) :
    ∃ ext ∈ zpathExts, zpath fs name = name ++ ext.data := by
  unfold zpath
  rcases hz : zpathExts.find?
      (fun ext => fs.pathExists (name ++ ext.data)) with _ | ext
  · rw [hz]
    refine ⟨"", by decide, ?_⟩
    simp
  · rw [hz]
    exact ⟨ext, List.mem_of_find?_eq_some hz, rfl⟩

theorem zpath_fsFof_hit (fs0 : FS) (acc : List PStr) (name : PStr)
    (hf : fs0.isfile (zpath fs0 name) = true)
    (hacc : zpath fs0 name ∉ acc) :
    zpath (fsFof fs0 acc) name = zpath fs0 name ∧
    (fsFof fs0 acc).isfile (zpath fs0 name) = true := by
  have hmono : ∀ ext : String,
      (fsFof fs0 acc).pathExists (name ++ ext.data) = true →
      fs0.pathExists (name ++ ext.data) = true :=
    fun ext => pathExists_fsFof_mono fs0 acc (name ++ ext.data)
  have hisf : (fsFof fs0 acc).isfile (zpath fs0 name) = true := by
    rw [isfile_fsFof, hf]
    simp [hacc]
  refine ⟨?_, hisf⟩
  unfold zpath at hf hisf ⊢
  rcases hz : zpathExts.find?
      (fun ext => fs0.pathExists (name ++ ext.data)) with _ | ext0
  · -- no variant exists in fs0: `zpath fs0 name = name`, yet `name` is a
    -- file of fs0 — impossible since "" is probed.
    exfalso
    rw [hz] at hf
    have hex : fs0.pathExists (name ++ ("" : String).data) = false := by
      have h1 := List.find?_eq_none.mp hz "" (by decide)
      simpa using h1
    have h2 : fs0.pathExists name = false := by simpa using hex
    simp only [FS.pathExists, Bool.or_eq_false_iff] at h2
    rw [h2.1] at hf
    cases hf
  · rw [hz] at hf hisf
    have hpf : (fsFof fs0 acc).pathExists (name ++ ext0.data) = true := by
      simp only [FS.pathExists, Bool.or_eq_true]
      exact Or.inl hisf
    rw [find?_pred_mono_some _ _ hmono zpathExts ext0 hz hpf, hz]

theorem zpath_fsFof_miss (fs0 : FS) (acc : List PStr) (name : PStr)
    (hf : fs0.isfile (zpath fs0 name) = false) :
    (fsFof fs0 acc).isfile (zpath (fsFof fs0 acc) name) = false := by
  have hmono : ∀ ext : String,
      (fsFof fs0 acc).pathExists (name ++ ext.data) = true →
      fs0.pathExists (name ++ ext.data) = true :=
    fun ext => pathExists_fsFof_mono fs0 acc (name ++ ext.data)
  unfold zpath at hf ⊢
  rcases hz : zpathExts.find?
      (fun ext => fs0.pathExists (name ++ ext.data)) with _ | ext0
  · rw [find?_pred_mono_none _ _ hmono zpathExts hz]
    rw [hz] at hf
    rw [isfile_fsFof, hf]
    rfl
  · rw [hz] at hf
    -- the first existing variant in fs0 is not a regular file there, so it
    -- is a directory, which survives in the filtered state.
    have hp0 : fs0.pathExists (name ++ ext0.data) = true := by
      have h1 := List.find?_some hz
      simpa using h1
    have hdir : fs0.dirs.any (fun d => d == name ++ ext0.data) = true := by
      simp only [FS.pathExists, Bool.or_eq_true] at hp0
      rcases hp0 with hp0 | hp0
      · rw [hp0] at hf; cases hf
      · exact hp0
    have hpf : (fsFof fs0 acc).pathExists (name ++ ext0.data) = true := by
      simp only [FS.pathExists, Bool.or_eq_true]
      exact Or.inr hdir
    rw [find?_pred_mono_some _ _ hmono zpathExts ext0 hz hpf]
    rw [isfile_fsFof, hf]
    rfl

theorem rwfStep_agree_some (az : Bool) (fs0 : FS) (acc : List PStr)
    (pr : PStr × PStr) (c : PStr) (hc : rwfCandidate az fs0 pr = some c)
    (hacc : c ∉ acc) :
    rwfStep az (acc, fsFof fs0 acc) pr =
      (acc ++ [c], fsFof fs0 (acc ++ [c])) := by
  rcases az with _ | _
  · -- allow_zpath = false: the candidate is the bare join
    simp only [rwfCandidate] at hc
    rcases hf0 : fs0.isfile (osJoin pr.1 pr.2) with _ | _
    · simp [hf0] at hc
    · simp only [Bool.false_eq_true, if_false, hf0, if_true] at hc
      have hcj : osJoin pr.1 pr.2 = c := by
        simpa using hc
      subst hcj
      have hisf : (fsFof fs0 acc).isfile (osJoin pr.1 pr.2) = true := by
        rw [isfile_fsFof, hf0]
        simp [hacc]
      simp [rwfStep, hisf, removeFile_fsFof]
  · -- allow_zpath = true: the candidate is the zpath-resolved join
    simp only [rwfCandidate] at hc
    rcases hf0 : fs0.isfile (zpath fs0 (osJoin pr.1 pr.2)) with _ | _
    · simp [hf0] at hc
    · simp only [if_true, hf0] at hc
      have hcj : zpath fs0 (osJoin pr.1 pr.2) = c := by
        simpa using hc
      have hstab := zpath_fsFof_hit fs0 acc (osJoin pr.1 pr.2) hf0
        (hcj ▸ hacc)
      subst hcj
      simp [rwfStep, hstab.1, hstab.2, removeFile_fsFof]

theorem rwfStep_agree_none (az : Bool) (fs0 : FS) (acc : List PStr)
    (pr : PStr × PStr) (hc : rwfCandidate az fs0 pr = none) :
    rwfStep az (acc, fsFof fs0 acc) pr = (acc, fsFof fs0 acc) := by
  rcases az with _ | _
  · simp only [rwfCandidate] at hc
    rcases hf0 : fs0.isfile (osJoin pr.1 pr.2) with _ | _
    · have hisf : (fsFof fs0 acc).isfile (osJoin pr.1 pr.2) = false := by
        rw [isfile_fsFof, hf0]
        rfl
      simp [rwfStep, hisf]
    · simp [hf0] at hc
  · simp only [rwfCandidate] at hc
    rcases hf0 : fs0.isfile (zpath fs0 (osJoin pr.1 pr.2)) with _ | _
    · have hmiss := zpath_fsFof_miss fs0 acc (osJoin pr.1 pr.2) hf0
      simp [rwfStep, hmiss]
    · simp [hf0] at hc

theorem rwf_loop_cands (az : Bool) (fs0 : FS) :
    ∀ (pairs : List (PStr × PStr)) (acc : List PStr),
      (acc ++ pairs.filterMap (rwfCandidate az fs0)).Nodup →
      pairs.foldl (rwfStep az) (acc, fsFof fs0 acc) =
        (acc ++ pairs.filterMap (rwfCandidate az fs0),
          fsFof fs0 (acc ++ pairs.filterMap (rwfCandidate az fs0))) := by
  intro pairs
  induction pairs with
  | nil => intro acc _; simp
  | cons pr rest ih =>
    intro acc h
    rcases hc : rwfCandidate az fs0 pr with _ | c
    · rw [List.foldl_cons, rwfStep_agree_none az fs0 acc pr hc]
      rw [List.filterMap_cons_none hc] at h ⊢
      exact ih acc h
    · rw [List.filterMap_cons_some hc] at h ⊢
      have hacc : c ∉ acc := by
        rcases List.nodup_append.mp h with ⟨_, _, hdisj⟩
        exact fun hmem => hdisj hmem (List.mem_cons_self c _)
      rw [List.foldl_cons, rwfStep_agree_some az fs0 acc pr c hc hacc]
      have h2 : ((acc ++ [c]) ++ rest.filterMap (rwfCandidate az fs0)).Nodup := by
        rw [List.append_assoc, List.singleton_append]
        exact h
      rw [ih (acc ++ [c]) h2, List.append_assoc, List.singleton_append]

theorem rwf_loop_frame (az : Bool) (fs0 : FS) :
    ∀ (pairs : List (PStr × PStr)) (acc : List PStr),
      ((pairs.foldl (rwfStep az) (acc, fsFof fs0 acc)).2 =
        fsFof fs0 ((pairs.foldl (rwfStep az) (acc, fsFof fs0 acc)).1)) ∧
      (∃ added, (pairs.foldl (rwfStep az) (acc, fsFof fs0 acc)).1 =
          acc ++ added ∧
        ∀ q ∈ added, ∃ pr ∈ pairs, ∃ ext ∈ (if az then zpathExts else [""]),
          q = osJoin pr.1 pr.2 ++ ext.data) := by
  intro pairs
  induction pairs with
  | nil =>
    intro acc
    exact ⟨rfl, [], by simp, by simp⟩
  | cons pr rest ih =>
    intro acc
    have hstep : ∃ acc2, rwfStep az (acc, fsFof fs0 acc) pr =
        (acc2, fsFof fs0 acc2) ∧
        (acc2 = acc ∨ ∃ q, acc2 = acc ++ [q] ∧
          ∃ ext ∈ (if az then zpathExts else [""]),
            q = osJoin pr.1 pr.2 ++ ext.data) := by
      rcases az with _ | _
      · by_cases hf : (fsFof fs0 acc).isfile (osJoin pr.1 pr.2) = true
        · refine ⟨acc ++ [osJoin pr.1 pr.2], ?_,
            Or.inr ⟨osJoin pr.1 pr.2, rfl, "", by simp, by simp⟩⟩
          simp [rwfStep, hf, removeFile_fsFof]
        · refine ⟨acc, ?_, Or.inl rfl⟩
          simp [rwfStep, hf]
      · by_cases hf : (fsFof fs0 acc).isfile
            (zpath (fsFof fs0 acc) (osJoin pr.1 pr.2)) = true
        · rcases zpath_shape (fsFof fs0 acc) (osJoin pr.1 pr.2) with
            ⟨ext, hm, hsh⟩
          refine ⟨acc ++ [zpath (fsFof fs0 acc) (osJoin pr.1 pr.2)], ?_,
            Or.inr ⟨_, rfl, ext, by simpa using hm, hsh⟩⟩
          simp [rwfStep, hf, removeFile_fsFof]
        · refine ⟨acc, ?_, Or.inl rfl⟩
          simp [rwfStep, hf]
    rcases hstep with ⟨acc2, heq, hshape⟩
    rw [List.foldl_cons, heq]
    rcases ih acc2 with ⟨h1, added2, h2, h3⟩
    refine ⟨h1, ?_⟩
    rcases hshape with hsame | ⟨q0, hq0, ext0, hm0, hsh0⟩
    · subst hsame
      exact ⟨added2, h2, fun q hq =>
        (h3 q hq).elim fun pr2 hpr2 =>
          ⟨pr2, List.mem_cons_of_mem pr hpr2.1, hpr2.2⟩⟩
    · refine ⟨q0 :: added2, ?_, ?_⟩
      · rw [h2, hq0, List.append_assoc, List.singleton_append]
      · intro q hq
        rcases List.mem_cons.mp hq with hq | hq
        · exact ⟨pr, List.mem_cons_self pr rest, ext0, hm0, hq ▸ hsh0⟩
        · rcases h3 q hq with ⟨pr2, hpr2, hrest⟩
          exact ⟨pr2, List.mem_cons_of_mem pr hpr2, hrest⟩

theorem rwfCandidate_some_iff (az : Bool) (fs : FS) (pr : PStr × PStr)
    (p : PStr) :
    rwfCandidate az fs pr = some p ↔
      (p = (if az then zpath fs (osJoin pr.1 pr.2) else osJoin pr.1 pr.2) ∧
        fs.isfile p = true) := by
  unfold rwfCandidate
  by_cases hf : fs.isfile
      (if az then zpath fs (osJoin pr.1 pr.2) else osJoin pr.1 pr.2) = true
  · rw [if_pos hf]
    constructor
    · intro h
      have hp : (if az then zpath fs (osJoin pr.1 pr.2)
          else osJoin pr.1 pr.2) = p := by
        injection h
      exact ⟨hp.symm, hp ▸ hf⟩
    · intro hpair
      rw [hpair.1]
  · rw [if_neg hf]
    constructor
    · intro h
      cases h
    · intro hpair
      exact absurd (hpair.1 ▸ hpair.2) hf

theorem mem_removalCandidates_iff (abspath : PStr → PStr)
    (directories file_names : List PStr) (az : Bool) (fs : FS) (p : PStr) :
    p ∈ removalCandidates abspath directories file_names az fs ↔
      ∃ d ∈ directories, ∃ f ∈ file_names,
        p = (if az then zpath fs (osJoin (abspath (stripHost d)) f)
          else osJoin (abspath (stripHost d)) f) ∧
        fs.isfile p = true := by
  unfold removalCandidates rwfPairs
  rw [List.mem_filterMap]
  constructor
  · rintro ⟨pr, hpr, hc⟩
    rcases List.mem_flatMap.mp hpr with ⟨dd, hdd, hmem⟩
    rcases List.mem_map.mp hmem with ⟨f, hf, hpair⟩
    rcases List.mem_map.mp hdd with ⟨d, hd, hdeq⟩
    rcases (rwfCandidate_some_iff az fs pr p).mp hc with ⟨hp, hfile⟩
    refine ⟨d, hd, f, hf, ?_, hfile⟩
    rw [hp, ← hpair, hdeq]
  · rintro ⟨d, hd, f, hf, hp, hfile⟩
    refine ⟨(abspath (stripHost d), f), ?_, ?_⟩
    · exact List.mem_flatMap.mpr ⟨abspath (stripHost d),
        List.mem_map.mpr ⟨d, hd, rfl⟩, List.mem_map.mpr ⟨f, hf, rfl⟩⟩
    · exact (rwfCandidate_some_iff az fs (abspath (stripHost d), f) p).mpr
        ⟨hp, hfile⟩

/-- C4: under the natural no-aliasing condition (distinct removal targets),
`remove_workflow_files` returns exactly the list of removed files: the
`zpath`-resolved joins of each stripped-and-absolutised directory with each
file name that exist as regular files, ordered by directory first and then
file name; each such file is removed from the filesystem (which afterwards
is the initial one minus exactly the returned paths). -/
theorem remove_workflow_files_spec (abspath : PStr → PStr)
    (directories file_names : List PStr) (az : Bool) (fs : FS)
    (h : (removalCandidates abspath directories file_names az fs).Nodup) :
    ((remove_workflow_files abspath directories file_names az fs).1 =
      removalCandidates abspath directories file_names az fs) ∧
    ((remove_workflow_files abspath directories file_names az fs).2 =
      fsFof fs (removalCandidates abspath directories file_names az fs)) ∧
    (∀ p, p ∈ (remove_workflow_files abspath directories file_names az
        fs).1 ↔
      ∃ d ∈ directories, ∃ f ∈ file_names,
        p = (if az then zpath fs (osJoin (abspath (stripHost d)) f)
          else osJoin (abspath (stripHost d)) f) ∧
        fs.isfile p = true) := by
  have heq := rwf_foldl_pairs abspath directories file_names az fs
  have h0 : (([] : List PStr), fs) = (([] : List PStr), fsFof fs []) := by
    rw [fsFof_nil]
  have hkey := rwf_loop_cands az fs (rwfPairs abspath directories file_names)
    [] (by simpa using h)
  rw [heq, h0, hkey]
  simp only [List.nil_append]
  exact ⟨rfl, rfl, fun p =>
    mem_removalCandidates_iff abspath directories file_names az fs p⟩

/-- Closed witness for C4: in the concrete filesystem `fs0`, cleaning
`WAVECAR` and `CHGCAR` under `/calc` removes `WAVECAR` and the gzipped
`CHGCAR.gz`. -/
theorem remove_workflow_files_spec_witness :
    (removalCandidates abspath0 ["/calc".toList]
      ["WAVECAR".toList, "CHGCAR".toList] true fs0).Nodup ∧
    (remove_workflow_files abspath0 ["/calc".toList]
      ["WAVECAR".toList, "CHGCAR".toList] true fs0).1 =
      removalCandidates abspath0 ["/calc".toList]
        ["WAVECAR".toList, "CHGCAR".toList] true fs0 :=
  ⟨by decide,
    (remove_workflow_files_spec abspath0 ["/calc".toList]
      ["WAVECAR".toList, "CHGCAR".toList] true fs0 (by decide)).1⟩

/-- C5: `remove_workflow_files` removes only the named files: every file
whose path is not a (`zpath`-extended, when `allow_zpath`) join of a
stripped-and-absolutised directory with a file name survives with its
contents unchanged, no file entry is ever created, and no directory is
ever removed. -/
theorem remove_workflow_files_frame (abspath : PStr → PStr)
    (directories file_names : List PStr) (az : Bool) (fs : FS) :
    ((remove_workflow_files abspath directories file_names az fs).2.dirs =
      fs.dirs) ∧
    (∀ e ∈ fs.files,
      (∀ d ∈ directories, ∀ f ∈ file_names,
        ∀ ext ∈ (if az then zpathExts else [""]),
          e.1 ≠ osJoin (abspath (stripHost d)) f ++ ext.data) →
      e ∈ (remove_workflow_files abspath directories file_names az
        fs).2.files) ∧
    (∀ e, e ∈ (remove_workflow_files abspath directories file_names az
        fs).2.files → e ∈ fs.files) := by
  have heq := rwf_foldl_pairs abspath directories file_names az fs
  have h0 : (([] : List PStr), fs) = (([] : List PStr), fsFof fs []) := by
    rw [fsFof_nil]
  rw [h0] at heq
  rcases rwf_loop_frame az fs (rwfPairs abspath directories file_names) []
    with ⟨h1, added, h2, h3⟩
  rw [heq]
  refine ⟨?_, ?_, ?_⟩
  · rw [h1]
    rfl
  · intro e he hne
    rw [h1]
    have hnotin : e.1 ∉ (List.foldl (rwfStep az)
        ([], fsFof fs [])
        (rwfPairs abspath directories file_names)).1 := by
      rw [h2]
      intro hmem
      rcases h3 e.1 (by simpa using hmem) with ⟨pr, hpr, ext, hext, hsh⟩
      rcases List.mem_flatMap.mp hpr with ⟨dd, hdd, hmem2⟩
      rcases List.mem_map.mp hmem2 with ⟨f, hf, hpair⟩
      rcases List.mem_map.mp hdd with ⟨d, hd, hdeq⟩
      refine hne d hd f hf ext hext ?_
      rw [hsh, ← hpair, hdeq]
    exact List.mem_filter.mpr ⟨he, by simpa using hnotin⟩
  · intro e he
    rw [h1] at he
    exact (List.mem_filter.mp he).1

/-- Closed witness for C5: the unrelated file `/other/KEEP` survives the
`/calc` cleanup with its contents. -/
theorem remove_workflow_files_frame_witness :
    ("/other/KEEP".toList, "keep") ∈ fs0.files ∧
    ("/other/KEEP".toList, "keep") ∈
      (remove_workflow_files abspath0 ["/calc".toList]
        ["WAVECAR".toList, "CHGCAR".toList] true fs0).2.files :=
  ⟨by decide,
    (remove_workflow_files_frame abspath0 ["/calc".toList]
      ["WAVECAR".toList, "CHGCAR".toList] true fs0).2.1
      ("/other/KEEP".toList, "keep") (by decide) (by decide)⟩
